import Mathlib

/-!
Verification development for the NutritionAI mobile repository.

The persistence layer (`src/services/database.ts`) and the OpenRouter
nutrition-analysis client (`src/services/openrouter.ts`) are embedded
shallowly: JavaScript numbers are modelled as rationals, SQLite tables as
lists of typed rows in insertion (rowid) order, and fallible operations as
`Except`/`Option` results.  JavaScript truthiness idioms (`x || y`) are
modelled explicitly by small helper functions.
-/

namespace NutritionAI

/-- JavaScript `Math.round`: rounds half away from zero towards plus
infinity, i.e. `Math.round x = floor (x + 0.5)` for every finite `x`. -/
def jsRound (q : ℚ) : ℤ :=
  Rat.floor (q + 1/2)

/-- JavaScript `n || 0` on a number: `0` is falsy, every other number is
truthy, so the expression is the identity on numbers (modelled without
`NaN`, which cannot arise in the integer sums involved). -/
def jsOrZero (n : ℤ) : ℤ :=
  if n = 0 then 0 else n

/-- JavaScript `s || fallback` on a string: the empty string is falsy. -/
def jsStrOr (s : String) (fallback : String) : String :=
  if s = "" then fallback else s

/-- JavaScript `v || fallback` where `v : string | undefined`. -/
def jsStrOptOr (v : Option String) (fallback : String) : String :=
  match v with
  | none => fallback
  | some s => jsStrOr s fallback

/-- JavaScript `v || fallback` where `v : number | undefined`: `undefined`
and `0` are falsy, every other number is truthy. -/
def jsNumOptOr (v : Option ℚ) (fallback : ℚ) : ℚ :=
  match v with
  | none => fallback
  | some x => if x = 0 then fallback else x

/-! ## Database rows and state

One structure per SQLite table of `initializeDatabase`.  Rows are kept in
insertion order, which is rowid order for these append-only inserts;
`getFirstAsync` of an unordered `SELECT` is modelled as the first matching
row in that order (SQLite returns full-table scans in rowid order). -/

/-- Row of the `users` table. -/
structure UserRow where
  id : ℤ
  name : String
  weight : Option ℚ
  age : Option ℚ
  activity_level : Option String
  weight_goal : Option String
  calorie_goal : ℚ
  water_goal : ℚ
  setup_completed : Bool
  deriving DecidableEq

/-- Row of the `food_entries` table (the generated `created_at` timestamp
carries no information used by the claims and is omitted). -/
structure FoodRow where
  id : ℤ
  user_id : ℚ
  food_description : String
  quantity : ℚ
  unit : String
  meal_type : String
  food_category : Option String
  calories : ℚ
  protein : ℚ
  carbs : ℚ
  fat : ℚ
  logged_date : String
  deriving DecidableEq

/-- Row of the `water_intake` table. -/
structure WaterRow where
  user_id : ℤ
  amount : ℤ
  logged_date : String
  deriving DecidableEq

/-- Row of the `settings` table.  The schema declares only the
autoincrement primary key as a uniqueness constraint; there is no
`UNIQUE (user_id, setting_key)` index. -/
structure SettingRow where
  user_id : ℤ
  setting_key : String
  setting_value : String
  deriving DecidableEq

/-- The four tables owned by `DatabaseService`. -/
structure DbState where
  users : List UserRow
  food_entries : List FoodRow
  water_intake : List WaterRow
  settings : List SettingRow
  deriving DecidableEq

/-- Database state right after `initializeDatabase` on a fresh install:
empty tables except the default user row
(`INSERT INTO users (id, name, calorie_goal, water_goal, setup_completed)
VALUES (1, 'Default User', 2000, 2500, 0)`). -/
def initDb : DbState :=
  { users := [{ id := 1, name := "Default User", weight := none, age := none,
                activity_level := none, weight_goal := none,
                calorie_goal := 2000, water_goal := 2500,
                setup_completed := false }]
    food_entries := []
    water_intake := []
    settings := [] }

/-! ## Settings operations -/

/-- Embeds `setSetting`:
`INSERT OR REPLACE INTO settings (user_id, setting_key, setting_value)
VALUES (?, ?, ?)`.
The insert omits the `id` column, so SQLite assigns a fresh rowid; since
the primary key is the table's only uniqueness constraint, the `OR
REPLACE` clause can never fire and the statement behaves as a plain
append. -/
def setSetting (db : DbState) (key value : String) (userId : ℤ) : DbState :=
  { db with settings := db.settings ++ [{ user_id := userId, setting_key := key,
                                          setting_value := value }] }

/-- Embeds `getSetting`:
`SELECT setting_value FROM settings WHERE user_id = ? AND setting_key = ?`
read with `getFirstAsync` (no `ORDER BY`, hence first matching row in
rowid order), followed by `result?.setting_value || null`. -/
def getSetting (db : DbState) (key : String) (userId : ℤ) : Option String :=
  match (db.settings.filter
      (fun r => r.user_id == userId && r.setting_key == key)).head? with
  | none => none
  | some r => if r.setting_value = "" then none else some r.setting_value

/-! ## Water intake operations -/

/-- Embeds `addWaterIntake`:
`INSERT INTO water_intake (user_id, amount, logged_date) VALUES (?, ?, ?)`. -/
def addWaterIntake (db : DbState) (amount : ℤ) (date : String) (userId : ℤ) :
    DbState :=
  { db with water_intake := db.water_intake ++ [{ user_id := userId,
                                                  amount := amount,
                                                  logged_date := date }] }

/-- Embeds `getWaterIntakeByDate`:
`SELECT COALESCE(SUM(amount), 0) as total FROM water_intake WHERE
user_id = ? AND logged_date = ?` followed by `result?.total || 0`.
The aggregate query always yields one row, with `COALESCE` turning the
empty-sum `NULL` into `0`. -/
def getWaterIntakeByDate (db : DbState) (date : String) (userId : ℤ) : ℤ :=
  let total := ((db.water_intake.filter
      (fun r => r.user_id == userId && r.logged_date == date)).map
      (fun r => r.amount)).sum
  jsOrZero total

/-! ## Food entry update -/

/-- A `Partial<FoodEntry>` update object.  `none` covers both an absent
key and a key present with an `undefined` value: the source filters
`Object.entries(updates)` with `value !== undefined`, so the two are
indistinguishable to `updateFoodEntry`.  `id` and `created_at` keys may be
present but are excluded by the same filter. -/
structure FoodUpdate where
  id : Option ℤ := none
  user_id : Option ℚ := none
  food_description : Option String := none
  quantity : Option ℚ := none
  unit : Option String := none
  meal_type : Option String := none
  food_category : Option (Option String) := none
  calories : Option ℚ := none
  protein : Option ℚ := none
  carbs : Option ℚ := none
  fat : Option ℚ := none
  logged_date : Option String := none
  created_at : Option String := none
  deriving DecidableEq

/-- The filtered entry list of `updateFoodEntry` is non-empty: some field
other than `id` and `created_at` is supplied and defined. -/
def FoodUpdate.hasEffectiveField (u : FoodUpdate) : Bool :=
  u.user_id.isSome || u.food_description.isSome || u.quantity.isSome ||
  u.unit.isSome || u.meal_type.isSome || u.food_category.isSome ||
  u.calories.isSome || u.protein.isSome || u.carbs.isSome ||
  u.fat.isSome || u.logged_date.isSome

/-- Applies the assembled `SET` clause of `updateFoodEntry` to one row:
each supplied, defined field overwrites the corresponding column. -/
def applyFoodUpdate (r : FoodRow) (u : FoodUpdate) : FoodRow :=
  { r with
    user_id := u.user_id.getD r.user_id
    food_description := u.food_description.getD r.food_description
    quantity := u.quantity.getD r.quantity
    unit := u.unit.getD r.unit
    meal_type := u.meal_type.getD r.meal_type
    food_category := u.food_category.getD r.food_category
    calories := u.calories.getD r.calories
    protein := u.protein.getD r.protein
    carbs := u.carbs.getD r.carbs
    fat := u.fat.getD r.fat
    logged_date := u.logged_date.getD r.logged_date }

/-- Embeds `updateFoodEntry`: filter the supplied entries down to defined
fields other than `id`/`created_at`; if none remain, return immediately
without touching the database; otherwise run
`UPDATE food_entries SET ... WHERE id = ?`. -/
def updateFoodEntry (db : DbState) (id : ℤ) (u : FoodUpdate) : DbState :=
  if u.hasEffectiveField then
    { db with food_entries := (db.food_entries.map
        (fun r => if r.id = id then applyFoodUpdate r u else r)) }
  else
    db

/-! ## User profile update and derived goals -/

/-- Embeds the private `calculateCalorieGoal`: Mifflin-St Jeor BMR with a
fixed 175 cm height, an activity multiplier looked up with a `|| 1.2`
fallback, and a goal-dependent deficit applied inside `Math.round`. -/
def calculateCalorieGoal (weight age : ℚ) (activityLevel weightGoal : String) :
    ℤ :=
  let bmr : ℚ := 10 * weight + 6.25 * 175 - 5 * age + 5
  let multiplier : ℚ :=
    match activityLevel with
    | "sedentary" => 1.2
    | "light" => 1.375
    | "moderate" => 1.55
    | "active" => 1.725
    | "very_active" => 1.9
    | _ => 1.2
  let tdee := bmr * multiplier
  match weightGoal with
  | "lose_aggressive" => jsRound (tdee - 750)
  | "lose_steady" => jsRound (tdee - 500)
  | _ => jsRound tdee

/-- Embeds the private `calculateWaterGoal`: 35 ml per kg, times 1.1 past
age 65. -/
def calculateWaterGoal (weight age : ℚ) : ℤ :=
  let baseWater := weight * 35
  let ageAdjustment : ℚ := if age > 65 then 1.1 else 1.0
  jsRound (baseWater * ageAdjustment)

/-- The profile argument of `updateUserProfile`; the optional goal fields
mirror `calorie_goal?: number` and `water_goal?: number`. -/
structure ProfileInput where
  name : String
  weight : ℚ
  age : ℚ
  activity_level : String
  weight_goal : String
  calorie_goal : Option ℚ := none
  water_goal : Option ℚ := none
  deriving DecidableEq

/-- Embeds `updateUserProfile`: resolves the goals with
`profile.calorie_goal || this.calculateCalorieGoal(...)` and
`profile.water_goal || this.calculateWaterGoal(...)` (JavaScript
truthiness: both `undefined` and `0` select the derived goal), then runs
the `UPDATE users SET ... , setup_completed = 1 WHERE id = ?`. -/
def updateUserProfile (db : DbState) (p : ProfileInput) (userId : ℤ) :
    DbState :=
  let calorieGoal : ℚ :=
    jsNumOptOr p.calorie_goal
      ((calculateCalorieGoal p.weight p.age p.activity_level p.weight_goal : ℤ) : ℚ)
  let waterGoal : ℚ :=
    jsNumOptOr p.water_goal ((calculateWaterGoal p.weight p.age : ℤ) : ℚ)
  { db with users := (db.users.map
      (fun u => if u.id = userId then
        { u with name := p.name, weight := some p.weight, age := some p.age,
                 activity_level := some p.activity_level,
                 weight_goal := some p.weight_goal,
                 calorie_goal := calorieGoal, water_goal := waterGoal,
                 setup_completed := true }
      else u)) }

/-- Embeds `getUser`: `SELECT * FROM users WHERE id = ?` via
`getFirstAsync`. -/
def getUser (db : DbState) (userId : ℤ) : Option UserRow :=
  (db.users.filter (fun u => u.id == userId)).head?

/-- A batch of `addWaterIntake` calls: `(amount, date, userId)` triples
applied in order. -/
def applyWaterInserts (db : DbState) (ins : List (ℤ × String × ℤ)) : DbState :=
  ins.foldl (fun d i => addWaterIntake d i.1 i.2.1 i.2.2) db

/-! ## OpenRouter client: configuration and auxiliary calls
Embedded from `src/services/openrouter.ts` (the current revision, whose
validator includes `food_category`). -/

/-- Mirrors the `OpenRouterConfig` interface. -/
structure ClientConfig where
  apiKey : String
  baseURL : String
  model : String
  maxTokens : ℤ
  deriving DecidableEq

/-- The `DEFAULT_CONFIG` constant. -/
def defaultConfig : ClientConfig :=
  { apiKey := "", baseURL := "https://openrouter.ai/api/v1",
    model := "google/gemini-2.5-flash", maxTokens := 1000 }

/-- The constructor `new OpenRouterService(apiKey?)`:
`{ ...DEFAULT_CONFIG, apiKey: apiKey || '' }`. -/
def mkService (apiKey : Option String) : ClientConfig :=
  { defaultConfig with apiKey := jsStrOptOr apiKey "" }

/-- Outcome of the HTTP POST underlying `generateNutritionTip`: either a
response whose `choices[0]?.message?.content` optional chain produced the
given value (`none` when a link was `undefined`), or any thrown
axios/transport error. -/
inductive HttpOutcome where
  | ok (content : Option String)
  | err
  deriving DecidableEq

/-- Embeds `generateNutritionTip`.  The missing-key guard sits before the
`try` block, so it throws (modelled as `Except.error`); every failure of
the request itself is caught and replaced by the second canned sentence,
and a falsy (`undefined` or empty) content falls back to the first canned
sentence via `||`. -/
def generateNutritionTip (cfg : ClientConfig) (outcome : HttpOutcome) :
    Except String String :=
  if cfg.apiKey = "" then
    Except.error "OpenRouter API key not configured"
  else
    match outcome with
    | HttpOutcome.ok content =>
        Except.ok (jsStrOptOr content
          "Stay hydrated and eat a variety of colorful fruits and vegetables!")
    | HttpOutcome.err =>
        Except.ok
          "Remember to balance your meals with proteins, healthy fats, and complex carbohydrates!"

/-- Embeds the `switch (status)` in `analyzeFood`'s axios-error handler:
`status` is `error.response?.status` (`none` for transport failures with
no response) and `message` is
`error.response?.data?.error?.message || error.message`. -/
def analyzeFoodHttpErrorMessage (status : Option ℤ) (message : String) :
    String :=
  if status = some 401 then
    "Invalid API key. Please check your OpenRouter configuration."
  else if status = some 429 then
    "Rate limit exceeded. Please try again later."
  else if status = some 500 then
    "OpenRouter service error. Please try again later."
  else
    "API Error: " ++ message

/-! ## OpenRouter client: response validation

JavaScript values reachable from `JSON.parse` output plus `undefined`
(the result of reading an absent property). -/

inductive JVal where
  | jnull
  | jbool (b : Bool)
  | jnum (q : ℚ)
  | jstr (s : String)
  | jarr (elems : List JVal)
  | jobj (fields : List (String × JVal))
  | jundefined

/-- Property read `v[k]`: `undefined` on a missing key or a non-object
receiver (the validator only ever reads fields after establishing
`typeof data === 'object'`, and its `data` comes from a successful
`JSON.parse` of a string starting with a brace, hence a proper object). -/
def JVal.getField (v : JVal) (k : String) : JVal :=
  match v with
  | JVal.jobj fields =>
      match fields.lookup k with
      | some w => w
      | none => JVal.jundefined
  | _ => JVal.jundefined

/-- The JavaScript `typeof` operator on modelled values (`typeof null`
and `typeof []` are both `'object'`). -/
def jsTypeof (v : JVal) : String :=
  match v with
  | JVal.jnull => "object"
  | JVal.jbool _ => "boolean"
  | JVal.jnum _ => "number"
  | JVal.jstr _ => "string"
  | JVal.jarr _ => "object"
  | JVal.jobj _ => "object"
  | JVal.jundefined => "undefined"

/-- `Array.prototype.includes` on an array of string literals:
SameValueZero comparison, so only a string member can match. -/
def includesStr (xs : List String) (v : JVal) : Bool :=
  match v with
  | JVal.jstr s => xs.contains s
  | _ => false

/-- Embeds the private `isValidNutritionResponse` type guard: a chain of
`typeof` checks and two enum-membership checks.  String fields are only
required to have type `string` — emptiness is not inspected. -/
def isValidNutritionResponse (data : JVal) : Bool :=
  jsTypeof data == "object" &&
  jsTypeof (data.getField "food_description") == "string" &&
  jsTypeof (data.getField "estimated_serving") == "string" &&
  jsTypeof (data.getField "food_category") == "string" &&
  includesStr ["vegetables", "fruits", "grains", "protein", "dairy"]
    (data.getField "food_category") &&
  jsTypeof (data.getField "calories") == "number" &&
  jsTypeof (data.getField "protein") == "number" &&
  jsTypeof (data.getField "carbs") == "number" &&
  jsTypeof (data.getField "fat") == "number" &&
  includesStr ["high", "medium", "low"] (data.getField "confidence")

/-- A fully-populated nutrition object as `JSON.parse` would produce it. -/
def mkNutritionObj (desc serving category : String)
    (calories protein carbs fat : ℚ) (confidence : String) : JVal :=
  JVal.jobj [("food_description", JVal.jstr desc),
             ("estimated_serving", JVal.jstr serving),
             ("food_category", JVal.jstr category),
             ("calories", JVal.jnum calories),
             ("protein", JVal.jnum protein),
             ("carbs", JVal.jnum carbs),
             ("fat", JVal.jnum fat),
             ("confidence", JVal.jstr confidence)]

/-! ## OpenRouter client: JSON extraction from the model reply

Strings are modelled as lists of characters.  The two
`cleanContent.replace(..., '')` calls use the regexes
`/```json\s*|\s*```/g` and `/```\s*|\s*```/g`; a global replace scans left
to right, at each position trying the first alternative then the second,
and resumes after each (non-empty) match. -/

/-- JavaScript `\s`: space, tab, line terminators, and the Unicode
whitespace code points. -/
def isJsWs (c : Char) : Bool :=
  c.val == 9 || c.val == 10 || c.val == 11 || c.val == 12 || c.val == 13 ||
  c.val == 32 || c.val == 160 || c.val == 5760 ||
  (8192 ≤ c.val && c.val ≤ 8202) || c.val == 8232 || c.val == 8233 ||
  c.val == 8239 || c.val == 8287 || c.val == 12288 || c.val == 65279

/-- Length of the maximal whitespace run at the head of the list (what a
greedy `\s*` consumes). -/
def wsRun : List Char → Nat
  | [] => 0
  | c :: t => if isJsWs c then wsRun t + 1 else 0

/-- `leadsWith pat s` holds when `pat` is an initial segment of `s`. -/
def leadsWith : List Char → List Char → Bool
  | [], _ => true
  | _ :: _, [] => false
  | p :: ps, c :: cs => p == c && leadsWith ps cs

/-- The three-backtick fence delimiter. -/
def fenceChars : List Char := ['`', '`', '`']

/-- The opening delimiter with language tag, ` ```json `. -/
def fenceJsonChars : List Char := ['`', '`', '`', 'j', 's', 'o', 'n']

/-- Match length of `/```json\s*|\s*```/` at the head of `s`: the first
alternative wins when it applies; in the second, the greedy backtracking
`\s*` is forced to the full whitespace run because a backtick is not
whitespace. -/
def matchLen1 (s : List Char) : Option Nat :=
  if leadsWith fenceJsonChars s then some (7 + wsRun (s.drop 7))
  else if leadsWith fenceChars (s.drop (wsRun s)) then some (wsRun s + 3)
  else none

/-- Match length of `/```\s*|\s*```/` at the head of `s`. -/
def matchLen2 (s : List Char) : Option Nat :=
  if leadsWith fenceChars s then some (3 + wsRun (s.drop 3))
  else if leadsWith fenceChars (s.drop (wsRun s)) then some (wsRun s + 3)
  else none

/-- Characters a fence-regex match can consist of: backticks, the letters
of `json`, and whitespace. -/
def matchChar (c : Char) : Bool :=
  c == '`' || c == 'j' || c == 's' || c == 'o' || c == 'n' || isJsWs c

/-- One global replace-with-empty pass: at each position, delete the match
found there (resuming after it) or keep the character and move on.  The
fuel argument (one unit per step, initially the string length) makes the
recursion structural; every match consumes at least one character, so the
fuel never runs out. -/
def scrubFuel (m : List Char → Option Nat) : Nat → List Char → List Char
  | 0, s => s
  | _ + 1, [] => []
  | fuel + 1, c :: t =>
      match m (c :: t) with
      | some n => if n = 0 then c :: scrubFuel m fuel t
                  else scrubFuel m fuel ((c :: t).drop n)
      | none => c :: scrubFuel m fuel t

/-- `s.replace(regex, '')` for a regex with matcher `m`. -/
def scrub (m : List Char → Option Nat) (s : List Char) : List Char :=
  scrubFuel m s.length s

/-- `String.prototype.trim`: strip leading and trailing whitespace. -/
def jsTrim (l : List Char) : List Char :=
  ((l.dropWhile isJsWs).reverse.dropWhile isJsWs).reverse

/-- `String.prototype.indexOf` restricted to a single character,
returning `none` for `-1`. -/
def idxOf (c : Char) : List Char → Option Nat
  | [] => none
  | a :: t => if a == c then some 0 else (idxOf c t).map (fun i => i + 1)

/-- `String.prototype.lastIndexOf` for a single character. -/
def lastIdxOf (c : Char) (l : List Char) : Option Nat :=
  (idxOf c l.reverse).map (fun i => l.length - 1 - i)

/-- `String.prototype.substring`, which swaps its arguments when
`a > b`. -/
def jsSubstring (l : List Char) (a b : Nat) : List Char :=
  (l.take (max a b)).drop (min a b)

/-- The candidate-JSON isolation step of `analyzeFood`: trim, run the two
fence-stripping replaces, then cut from the first `{` to the last `}`;
`none` models the thrown `'No valid JSON object found in response'`. -/
def extractJsonCandidate (content : List Char) : Option (List Char) :=
  match idxOf '\x7b' (scrub matchLen2 (scrub matchLen1 (jsTrim content))),
        lastIdxOf '\x7d' (scrub matchLen2 (scrub matchLen1 (jsTrim content))) with
  | some s, some e =>
      some (jsSubstring (scrub matchLen2 (scrub matchLen1 (jsTrim content)))
        s (e + 1))
  | _, _ => none

/-- Result of `JSON.parse`: a value, or a thrown `SyntaxError`. -/
inductive JsonParseOutcome where
  | ok (v : JVal)
  | synErr

/-- The response-content processing of `analyzeFood`, from the extracted
`choices[0]?.message?.content` onwards, parameterised by the `JSON.parse`
oracle.  Control flow of the source: the guard `if (!content)` throws
`'No response content from OpenRouter'`; inside the inner `try`, a missing
brace throws a plain `Error`, `JSON.parse` may throw a `SyntaxError`, and
a failed validation throws the plain
`Error('Invalid nutrition analysis response format')`.  The inner
`catch (parseError)` replaces a `SyntaxError` with the clearer-image
message and every other error — including the invalid-format error and
the missing-brace error — with
`'Failed to parse AI response. Please try again.'`; the outer `catch`
re-throws these unchanged because they are `Error` instances and not
axios errors. -/
def analyzeFoodProcessContent (jsonParse : List Char → JsonParseOutcome)
    (content : List Char) : Except String JVal :=
  if content = [] then Except.error "No response content from OpenRouter"
  else
    match extractJsonCandidate content with
    | none => Except.error "Failed to parse AI response. Please try again."
    | some jsonString =>
        match jsonParse jsonString with
        | JsonParseOutcome.synErr =>
            Except.error
              "The AI returned an invalid response format. Please try again with a clearer image."
        | JsonParseOutcome.ok v =>
            if isValidNutritionResponse v then Except.ok v
            else Except.error "Failed to parse AI response. Please try again."

/-! ## Helper lemmas -/

theorem ratFloor_eq_intFloor (q : ℚ) : Rat.floor q = ⌊q⌋ := by
  rw [Rat.floor_def, Rat.floor_def']

theorem jsOrZero_eq (n : ℤ) : jsOrZero n = n := by
  unfold jsOrZero
  split
  · omega
  · rfl

theorem applyWaterInserts_water :
    ∀ (ins : List (ℤ × String × ℤ)) (db : DbState),
      (applyWaterInserts db ins).water_intake =
        db.water_intake ++ ins.map
          (fun i => { user_id := i.2.2, amount := i.1, logged_date := i.2.1 }) := by
  intro ins
  induction ins with
  | nil => intro db; simp [applyWaterInserts]
  | cons i t ih =>
      intro db
      have hstep : applyWaterInserts db (i :: t) =
          applyWaterInserts (addWaterIntake db i.1 i.2.1 i.2.2) t := by
        simp [applyWaterInserts]
      rw [hstep, ih]
      simp [addWaterIntake]

theorem applyWaterInserts_users (ins : List (ℤ × String × ℤ)) (db : DbState) :
    (applyWaterInserts db ins).users = db.users := by
  induction ins generalizing db with
  | nil => simp [applyWaterInserts]
  | cons i t ih =>
      have hstep : applyWaterInserts db (i :: t) =
          applyWaterInserts (addWaterIntake db i.1 i.2.1 i.2.2) t := by
        simp [applyWaterInserts]
      rw [hstep, ih]
      simp [addWaterIntake]

theorem head?_filter_cases {α : Type} (p : α → Bool) (l : List α) (a : α)
    (h : (l.filter p).head? = some a) : a ∈ l ∧ p a = true := by
  cases hf : l.filter p with
  | nil => rw [hf] at h; cases h
  | cons b t =>
      rw [hf] at h
      have hb : a = b := by
        simp only [List.head?] at h
        exact (Option.some.inj h).symm
      subst hb
      have : a ∈ l.filter p := by rw [hf]; exact List.mem_cons_self a t
      exact ⟨(List.mem_filter.mp this).1, (List.mem_filter.mp this).2⟩

/-! ## Scan lemmas for the fence-stripping passes -/

theorem scrubFuel_congr (m : List Char → Option Nat) :
    ∀ (f1 f2 : Nat) (s : List Char), s.length ≤ f1 → s.length ≤ f2 →
      scrubFuel m f1 s = scrubFuel m f2 s := by
  intro f1
  induction f1 with
  | zero =>
      intro f2 s h1 _
      have hs : s = [] := List.eq_nil_of_length_eq_zero (Nat.le_zero.mp h1)
      subst hs
      cases f2 <;> rfl
  | succ f1 ih =>
      intro f2 s h1 h2
      cases s with
      | nil => cases f2 <;> rfl
      | cons c t =>
          cases f2 with
          | zero => simp at h2
          | succ f2 =>
              have ht1 : t.length ≤ f1 := by simpa using h1
              have ht2 : t.length ≤ f2 := by simpa using h2
              cases hm : m (c :: t) with
              | none => simp [scrubFuel, hm, ih f2 t ht1 ht2]
              | some n =>
                  by_cases hn : n = 0
                  · simp [scrubFuel, hm, hn, ih f2 t ht1 ht2]
                  · have hd1 : ((c :: t).drop n).length ≤ f1 := by
                      simp only [List.length_drop]
                      simp only [List.length_cons]
                      omega
                    have hd2 : ((c :: t).drop n).length ≤ f2 := by
                      simp only [List.length_drop]
                      simp only [List.length_cons]
                      omega
                    simp [scrubFuel, hm, hn, ih f2 _ hd1 hd2]

theorem scrub_nil (m : List Char → Option Nat) : scrub m [] = [] := rfl

theorem scrub_cons_none (m : List Char → Option Nat) (c : Char) (t : List Char)
    (h : m (c :: t) = none) : scrub m (c :: t) = c :: scrub m t := by
  unfold scrub
  simp [scrubFuel, h]

theorem scrub_cons_match (m : List Char → Option Nat) (c : Char)
    (t : List Char) (n : Nat) (h : m (c :: t) = some n) (hn : 1 ≤ n) :
    scrub m (c :: t) = scrub m ((c :: t).drop n) := by
  unfold scrub
  have hne : ¬ n = 0 := by omega
  have hstep : scrubFuel m (c :: t).length (c :: t) =
      scrubFuel m t.length ((c :: t).drop n) := by
    simp [scrubFuel, h, hne]
  rw [hstep]
  apply scrubFuel_congr
  · simp only [List.length_drop, List.length_cons]
    omega
  · exact Nat.le_refl _

theorem scrub_mem (m : List Char → Option Nat)
    (hB : ∀ s n, m s = some n → 1 ≤ n) :
    ∀ (s : List Char) (c : Char), c ∈ scrub m s → c ∈ s := by
  suffices H : ∀ (len : Nat) (s : List Char), s.length ≤ len →
      ∀ c, c ∈ scrub m s → c ∈ s by
    intro s c h
    exact H s.length s (Nat.le_refl _) c h
  intro len
  induction len with
  | zero =>
      intro s h c hc
      have hs : s = [] := List.eq_nil_of_length_eq_zero (Nat.le_zero.mp h)
      subst hs
      rw [scrub_nil] at hc
      cases hc
  | succ len ih =>
      intro s hlen c hc
      cases s with
      | nil =>
          rw [scrub_nil] at hc
          cases hc
      | cons a t =>
          cases hm : m (a :: t) with
          | none =>
              rw [scrub_cons_none m a t hm] at hc
              rcases List.mem_cons.mp hc with h1 | h2
              · exact h1 ▸ List.mem_cons_self a t
              · exact List.mem_cons_of_mem a
                  (ih t (by simpa using hlen) c h2)
          | some n =>
              have hn := hB _ _ hm
              rw [scrub_cons_match m a t n hm hn] at hc
              have hd : ((a :: t).drop n).length ≤ len := by
                simp only [List.length_drop, List.length_cons]
                simp only [List.length_cons] at hlen
                omega
              exact List.mem_of_mem_drop (ih _ hd c hc)

theorem wsRun_ws :
    ∀ (l : List Char) (i : Nat), i < wsRun l →
      ∃ c, l[i]? = some c ∧ isJsWs c = true := by
  intro l
  induction l with
  | nil => intro i h; simp [wsRun] at h
  | cons c t ih =>
      intro i h
      by_cases hc : isJsWs c
      · cases i with
        | zero => exact ⟨c, by simp, hc⟩
        | succ i =>
            have hi : i < wsRun t := by
              simp only [wsRun, hc, if_true] at h
              omega
            obtain ⟨d, hd, hws⟩ := ih i hi
            exact ⟨d, by simpa using hd, hws⟩
      · simp [wsRun, hc] at h

theorem leadsWith_getElem :
    ∀ (p s : List Char), leadsWith p s = true →
      ∀ i, i < p.length → s[i]? = p[i]? := by
  intro p
  induction p with
  | nil => intro s _ i h; simp at h
  | cons a ps ih =>
      intro s h i hi
      cases s with
      | nil => simp [leadsWith] at h
      | cons c cs =>
          simp only [leadsWith, Bool.and_eq_true, beq_iff_eq] at h
          obtain ⟨hac, hlw⟩ := h
          cases i with
          | zero => simp [hac]
          | succ i =>
              have := ih cs hlw i (by simpa using hi)
              simpa using this

theorem append_head_mem (l b : List Char) (hne : l ≠ []) :
    ∃ c, (l ++ b)[0]? = some c ∧ c ∈ l := by
  cases l with
  | nil => exact absurd rfl hne
  | cons c t => exact ⟨c, by simp, List.mem_cons_self c t⟩

theorem wsRun_stops_in :
    ∀ (l b : List Char), l ≠ [] →
      (∃ c, l.getLast? = some c ∧ isJsWs c = false) →
      wsRun (l ++ b) < l.length ∧
        ∃ c, (l ++ b)[wsRun (l ++ b)]? = some c ∧ isJsWs c = false ∧ c ∈ l := by
  intro l
  induction l with
  | nil => intro b h; exact absurd rfl h
  | cons c t ih =>
      intro b _ hlast
      cases t with
      | nil =>
          obtain ⟨d, hd, hws⟩ := hlast
          have hdc : d = c := by
            simp [List.getLast?] at hd
            exact hd.symm
          subst hdc
          constructor
          · simp [wsRun, hws]
          · exact ⟨d, by simp [wsRun, hws], hws, List.mem_cons_self d []⟩
      | cons c2 t2 =>
          obtain ⟨d, hd, hws⟩ := hlast
          have hlast' : (c2 :: t2).getLast? = some d := by
            rw [← List.getLast?_cons_cons]
            exact hd
          by_cases hc : isJsWs c
          · obtain ⟨h1, e, he, hews, hemem⟩ :=
              ih b (by simp) ⟨d, hlast', hws⟩
            have hrun : wsRun ((c :: c2 :: t2) ++ b) =
                wsRun ((c2 :: t2) ++ b) + 1 := by
              simp [wsRun, hc]
            constructor
            · rw [hrun]; simpa using Nat.succ_lt_succ h1
            · refine ⟨e, ?_, hews, List.mem_cons_of_mem c hemem⟩
              rw [hrun]
              simpa using he
          · have hrun : wsRun ((c :: c2 :: t2) ++ b) = 0 := by
              simp [wsRun, hc]
            constructor
            · rw [hrun]; simp
            · refine ⟨c, ?_, ?_, List.mem_cons_self c (c2 :: t2)⟩
              · rw [hrun]; simp
              · simpa using hc

theorem matchLen1_pos {s : List Char} {n : Nat} (h : matchLen1 s = some n) :
    3 ≤ n := by
  unfold matchLen1 at h
  split at h
  · simp only [Option.some.injEq] at h
    omega
  · split at h
    · simp only [Option.some.injEq] at h
      omega
    · cases h

theorem matchLen2_pos {s : List Char} {n : Nat} (h : matchLen2 s = some n) :
    3 ≤ n := by
  unfold matchLen2 at h
  split at h
  · simp only [Option.some.injEq] at h
    omega
  · split at h
    · simp only [Option.some.injEq] at h
      omega
    · cases h

theorem fence_chars_match :
    ∀ c ∈ fenceJsonChars, matchChar c = true := by decide

theorem fence3_chars_match :
    ∀ c ∈ fenceChars, matchChar c = true := by decide

theorem leadsWith_char_at {p s : List Char} (hlw : leadsWith p s = true)
    {i : Nat} (hi : i < p.length) (hall : ∀ c ∈ p, matchChar c = true) :
    ∃ c, s[i]? = some c ∧ matchChar c = true := by
  have hp : p[i]? = some p[i] := by simp [hi]
  have hs : s[i]? = some p[i] := by
    rw [leadsWith_getElem p s hlw i hi, hp]
  exact ⟨p[i], hs, hall _ (p.getElem_mem hi)⟩

theorem matchLen1_chars {s : List Char} {n : Nat} (h : matchLen1 s = some n) :
    ∀ i, i < n → ∃ c, s[i]? = some c ∧ matchChar c = true := by
  unfold matchLen1 at h
  split at h
  · next hlw =>
      simp only [Option.some.injEq] at h
      intro i hi
      by_cases h7 : i < 7
      · exact leadsWith_char_at hlw (by simp [fenceJsonChars]; omega)
          fence_chars_match
      · have hrun : i - 7 < wsRun (s.drop 7) := by omega
        obtain ⟨c, hc, hws⟩ := wsRun_ws (s.drop 7) (i - 7) hrun
        rw [List.getElem?_drop] at hc
        have h77 : 7 + (i - 7) = i := by omega
        rw [h77] at hc
        exact ⟨c, hc, by simp [matchChar, hws]⟩
  · split at h
    · next hlw =>
        simp only [Option.some.injEq] at h
        intro i hi
        by_cases hk : i < wsRun s
        · obtain ⟨c, hc, hws⟩ := wsRun_ws s i hk
          exact ⟨c, hc, by simp [matchChar, hws]⟩
        · have hrange : i - wsRun s < 3 := by omega
          obtain ⟨c, hc, hmc⟩ := leadsWith_char_at hlw
            (show i - wsRun s < fenceChars.length by
              simp [fenceChars]; omega) fence3_chars_match
          rw [List.getElem?_drop] at hc
          have hks : wsRun s + (i - wsRun s) = i := by omega
          rw [hks] at hc
          exact ⟨c, hc, hmc⟩
    · cases h

theorem matchLen2_chars {s : List Char} {n : Nat} (h : matchLen2 s = some n) :
    ∀ i, i < n → ∃ c, s[i]? = some c ∧ matchChar c = true := by
  unfold matchLen2 at h
  split at h
  · next hlw =>
      simp only [Option.some.injEq] at h
      intro i hi
      by_cases h3 : i < 3
      · exact leadsWith_char_at hlw (by simp [fenceChars]; omega)
          fence3_chars_match
      · have hrun : i - 3 < wsRun (s.drop 3) := by omega
        obtain ⟨c, hc, hws⟩ := wsRun_ws (s.drop 3) (i - 3) hrun
        rw [List.getElem?_drop] at hc
        have h33 : 3 + (i - 3) = i := by omega
        rw [h33] at hc
        exact ⟨c, hc, by simp [matchChar, hws]⟩
  · split at h
    · next hlw =>
        simp only [Option.some.injEq] at h
        intro i hi
        by_cases hk : i < wsRun s
        · obtain ⟨c, hc, hws⟩ := wsRun_ws s i hk
          exact ⟨c, hc, by simp [matchChar, hws]⟩
        · have hrange : i - wsRun s < 3 := by omega
          obtain ⟨c, hc, hmc⟩ := leadsWith_char_at hlw
            (show i - wsRun s < fenceChars.length by
              simp [fenceChars]; omega) fence3_chars_match
          rw [List.getElem?_drop] at hc
          have hks : wsRun s + (i - wsRun s) = i := by omega
          rw [hks] at hc
          exact ⟨c, hc, hmc⟩
    · cases h

theorem matchLen1_tick {s : List Char} {n : Nat} (h : matchLen1 s = some n) :
    ∃ i, i < n ∧ s[i]? = some '`' := by
  have hpos := matchLen1_pos h
  unfold matchLen1 at h
  split at h
  · next hlw =>
      refine ⟨0, by omega, ?_⟩
      have := leadsWith_getElem _ _ hlw 0 (by simp [fenceJsonChars])
      rw [this]
      rfl
  · split at h
    · next hlw =>
        simp only [Option.some.injEq] at h
        refine ⟨wsRun s, by omega, ?_⟩
        have := leadsWith_getElem _ _ hlw 0 (by simp [fenceChars])
        rw [List.getElem?_drop] at this
        simpa using this
    · cases h

theorem matchLen2_tick {s : List Char} {n : Nat} (h : matchLen2 s = some n) :
    ∃ i, i < n ∧ s[i]? = some '`' := by
  have hpos := matchLen2_pos h
  unfold matchLen2 at h
  split at h
  · next hlw =>
      refine ⟨0, by omega, ?_⟩
      have := leadsWith_getElem _ _ hlw 0 (by simp [fenceChars])
      rw [this]
      rfl
  · split at h
    · next hlw =>
        simp only [Option.some.injEq] at h
        refine ⟨wsRun s, by omega, ?_⟩
        have := leadsWith_getElem _ _ hlw 0 (by simp [fenceChars])
        rw [List.getElem?_drop] at this
        simpa using this
    · cases h

theorem no_tick_of_leadsWith_fence {l b : List Char} (hne : l ≠ [])
    (hbt : '`' ∉ l)
    (hlw : leadsWith fenceChars (l ++ b) = true) : False := by
  obtain ⟨c, hc0, hcmem⟩ := append_head_mem l b hne
  have h0 := leadsWith_getElem _ _ hlw 0 (by simp [fenceChars])
  rw [hc0] at h0
  have : c = '`' := by
    have : some c = some '`' := by rw [h0]; rfl
    exact Option.some.inj this
  exact hbt (this ▸ hcmem)

theorem no_tick_of_leadsWith_fenceJson {l b : List Char} (hne : l ≠ [])
    (hbt : '`' ∉ l)
    (hlw : leadsWith fenceJsonChars (l ++ b) = true) : False := by
  obtain ⟨c, hc0, hcmem⟩ := append_head_mem l b hne
  have h0 := leadsWith_getElem _ _ hlw 0 (by simp [fenceJsonChars])
  rw [hc0] at h0
  have : c = '`' := by
    have : some c = some '`' := by rw [h0]; rfl
    exact Option.some.inj this
  exact hbt (this ▸ hcmem)

theorem no_fence_after_run {l b : List Char} (hne : l ≠ []) (hbt : '`' ∉ l)
    (hlast : ∃ c, l.getLast? = some c ∧ isJsWs c = false)
    (hlw : leadsWith fenceChars ((l ++ b).drop (wsRun (l ++ b))) = true) :
    False := by
  obtain ⟨_, c, hc, _, hcmem⟩ := wsRun_stops_in l b hne hlast
  have h0 := leadsWith_getElem _ _ hlw 0 (by simp [fenceChars])
  rw [List.getElem?_drop] at h0
  simp only [Nat.add_zero] at h0
  rw [hc] at h0
  have : c = '`' := by
    have : some c = some '`' := by rw [h0]; rfl
    exact Option.some.inj this
  exact hbt (this ▸ hcmem)

theorem matchLen1_no_match (l b : List Char) (hne : l ≠ []) (hbt : '`' ∉ l)
    (hlast : ∃ c, l.getLast? = some c ∧ isJsWs c = false) :
    matchLen1 (l ++ b) = none := by
  unfold matchLen1
  rw [if_neg, if_neg]
  · intro hlw
    exact no_fence_after_run hne hbt hlast hlw
  · intro hlw
    exact no_tick_of_leadsWith_fenceJson hne hbt hlw

theorem matchLen2_no_match (l b : List Char) (hne : l ≠ []) (hbt : '`' ∉ l)
    (hlast : ∃ c, l.getLast? = some c ∧ isJsWs c = false) :
    matchLen2 (l ++ b) = none := by
  unfold matchLen2
  rw [if_neg, if_neg]
  · intro hlw
    exact no_fence_after_run hne hbt hlast hlw
  · intro hlw
    exact no_tick_of_leadsWith_fence hne hbt hlw

theorem scrub_no_tick (m : List Char → Option Nat)
    (hC : ∀ s n, m s = some n → ∃ i, i < n ∧ s[i]? = some '`') :
    ∀ (s : List Char), '`' ∉ s → scrub m s = s := by
  intro s
  induction s with
  | nil => intro _; exact scrub_nil m
  | cons c t ih =>
      intro hbt
      have hm : m (c :: t) = none := by
        cases hm : m (c :: t) with
        | none => rfl
        | some n =>
            obtain ⟨i, _, hi⟩ := hC _ _ hm
            exact absurd (List.getElem?_mem hi) hbt
      rw [scrub_cons_none m c t hm,
          ih (fun hmem => hbt (List.mem_cons_of_mem c hmem))]

theorem scrub_skip (m : List Char → Option Nat)
    (hNM : ∀ l b, l ≠ [] → '`' ∉ l →
      (∃ c, l.getLast? = some c ∧ isJsWs c = false) → m (l ++ b) = none) :
    ∀ (j b : List Char), j ≠ [] → '`' ∉ j →
      (∃ c, j.getLast? = some c ∧ isJsWs c = false) →
      scrub m (j ++ b) = j ++ scrub m b := by
  intro j
  induction j with
  | nil => intro b h; exact absurd rfl h
  | cons c t ih =>
      intro b _ hbt hlast
      have hm : m ((c :: t) ++ b) = none := hNM (c :: t) b (by simp) hbt hlast
      have hstep : scrub m ((c :: t) ++ b) = c :: scrub m (t ++ b) :=
        scrub_cons_none m c (t ++ b) hm
      cases t with
      | nil => rw [hstep]; rfl
      | cons c2 t2 =>
          obtain ⟨d, hd, hws⟩ := hlast
          have hlast' : (c2 :: t2).getLast? = some d := by
            rw [← List.getLast?_cons_cons]
            exact hd
          rw [hstep, ih b (by simp)
            (fun hmem => hbt (List.mem_cons_of_mem c hmem)) ⟨d, hlast', hws⟩]
          rfl

theorem scrub_front (m : List Char → Option Nat)
    (hA : ∀ s n, m s = some n → ∀ i, i < n →
      ∃ c, s[i]? = some c ∧ matchChar c = true)
    (hB : ∀ s n, m s = some n → 1 ≤ n) :
    ∀ (a j b : List Char), j.head? = some '\x7b' →
      ∃ a2, (∀ c, c ∈ a2 → c ∈ a) ∧
        scrub m (a ++ (j ++ b)) = a2 ++ scrub m (j ++ b) := by
  intro a j b hj
  suffices H : ∀ (len : Nat) (a : List Char), a.length ≤ len →
      ∃ a2, (∀ c, c ∈ a2 → c ∈ a) ∧
        scrub m (a ++ (j ++ b)) = a2 ++ scrub m (j ++ b) by
    exact H a.length a (Nat.le_refl _)
  intro len
  induction len with
  | zero =>
      intro a ha
      have : a = [] := List.eq_nil_of_length_eq_zero (Nat.le_zero.mp ha)
      subst this
      exact ⟨[], by simp, by simp⟩
  | succ len ih =>
      intro a ha
      cases a with
      | nil => exact ⟨[], by simp, by simp⟩
      | cons c t =>
          cases hm : m ((c :: t) ++ (j ++ b)) with
          | none =>
              have hstep : scrub m ((c :: t) ++ (j ++ b)) =
                  c :: scrub m (t ++ (j ++ b)) :=
                scrub_cons_none m c (t ++ (j ++ b)) hm
              obtain ⟨a2, hsub, heq⟩ := ih t (by simpa using ha)
              refine ⟨c :: a2, ?_, ?_⟩
              · intro d hd
                rcases List.mem_cons.mp hd with h1 | h2
                · exact h1 ▸ List.mem_cons_self c t
                · exact List.mem_cons_of_mem c (hsub d h2)
              · rw [hstep, heq]
                rfl
          | some n =>
              have hn := hB _ _ hm
              have hnle : n ≤ (c :: t).length := by
                by_contra hgt
                push_neg at hgt
                obtain ⟨d, hd, hmc⟩ := hA _ _ hm (c :: t).length hgt
                rw [List.getElem?_append_right (Nat.le_refl _)] at hd
                simp only [Nat.sub_self] at hd
                have hj0 : (j ++ b)[0]? = some '\x7b' := by
                  rw [← List.head?_eq_getElem?]
                  cases j with
                  | nil => cases hj
                  | cons x xs =>
                      simp only [List.cons_append, List.head?]
                      simpa using hj
                rw [hj0] at hd
                have : '\x7b' = d := Option.some.inj hd
                subst this
                cases hmc
              have hdrop : ((c :: t) ++ (j ++ b)).drop n =
                  (c :: t).drop n ++ (j ++ b) :=
                List.drop_append_of_le_length hnle
              have hstep : scrub m ((c :: t) ++ (j ++ b)) =
                  scrub m ((c :: t).drop n ++ (j ++ b)) := by
                rw [List.cons_append,
                    scrub_cons_match m c (t ++ (j ++ b)) n hm hn,
                    ← List.cons_append, hdrop]
              obtain ⟨a2, hsub, heq⟩ := ih ((c :: t).drop n) (by
                simp only [List.length_drop, List.length_cons]
                simp only [List.length_cons] at ha
                omega)
              refine ⟨a2, ?_, ?_⟩
              · intro d hd
                exact List.mem_of_mem_drop (hsub d hd)
              · rw [hstep, heq]

theorem dropWhile_append_mid (p : Char → Bool) (x r : List Char)
    (hr : ∃ c, r.head? = some c ∧ p c = false) :
    (x ++ r).dropWhile p = x.dropWhile p ++ r := by
  induction x with
  | nil =>
      obtain ⟨c, hc, hp⟩ := hr
      cases r with
      | nil => cases hc
      | cons a t =>
          have hac : a = c := by simpa using hc
          subst hac
          simp [List.dropWhile_cons, hp]
  | cons a t ih =>
      by_cases hp : p a
      · simp [List.dropWhile_cons, hp, ih]
      · simp [List.dropWhile_cons, hp]

theorem jsTrim_decompose (x j y : List Char)
    (hj1 : j.head? = some '\x7b') (hj2 : j.getLast? = some '\x7d') :
    ∃ x1 y1, (∀ c, c ∈ x1 → c ∈ x) ∧ (∀ c, c ∈ y1 → c ∈ y) ∧
      jsTrim (x ++ (j ++ y)) = x1 ++ (j ++ y1) := by
  have hjy : ∃ c, (j ++ y).head? = some c ∧ isJsWs c = false := by
    cases j with
    | nil => cases hj1
    | cons a t =>
        have ha : a = '\x7b' := by simpa using hj1
        subst ha
        exact ⟨'\x7b', by simp, by decide⟩
  have hfront : (x ++ (j ++ y)).dropWhile isJsWs =
      x.dropWhile isJsWs ++ (j ++ y) := dropWhile_append_mid _ x (j ++ y) hjy
  have hjrev : ∃ c,
      (j.reverse ++ (x.dropWhile isJsWs).reverse).head? = some c ∧
        isJsWs c = false := by
    have hhead : j.reverse.head? = some '\x7d' := by
      rw [List.head?_reverse]
      exact hj2
    cases hrev : j.reverse with
    | nil => rw [hrev] at hhead; cases hhead
    | cons a t =>
        rw [hrev] at hhead
        have ha : a = '\x7d' := by simpa using hhead
        subst ha
        exact ⟨'\x7d', by simp, by decide⟩
  have hback : ((x.dropWhile isJsWs ++ (j ++ y)).reverse).dropWhile isJsWs =
      y.reverse.dropWhile isJsWs ++
        (j.reverse ++ (x.dropWhile isJsWs).reverse) := by
    have hshape : (x.dropWhile isJsWs ++ (j ++ y)).reverse =
        y.reverse ++ (j.reverse ++ (x.dropWhile isJsWs).reverse) := by
      simp [List.reverse_append, List.append_assoc]
    rw [hshape]
    exact dropWhile_append_mid _ y.reverse _ hjrev
  refine ⟨x.dropWhile isJsWs, (y.reverse.dropWhile isJsWs).reverse, ?_, ?_, ?_⟩
  · intro c hc
    exact (List.dropWhile_sublist isJsWs).mem hc
  · intro c hc
    rw [List.mem_reverse] at hc
    have := (List.dropWhile_sublist isJsWs).mem hc
    rwa [List.mem_reverse] at this
  · unfold jsTrim
    rw [hfront, hback]
    simp [List.reverse_append, List.append_assoc]

theorem idxOf_not_mem {c : Char} :
    ∀ {l : List Char}, c ∉ l → idxOf c l = none := by
  intro l
  induction l with
  | nil => intro _; rfl
  | cons a t ih =>
      intro h
      have hac : (a == c) = false := by
        simp only [List.mem_cons, not_or] at h
        simp [beq_eq_false_iff_ne]
        exact fun heq => h.1 heq.symm
      simp [idxOf, hac, ih (fun hmem => h (List.mem_cons_of_mem a hmem))]

theorem idxOf_append_not_mem {c : Char} (l1 l2 : List Char) (h : c ∉ l1) :
    idxOf c (l1 ++ l2) = (idxOf c l2).map (fun i => i + l1.length) := by
  induction l1 with
  | nil =>
      cases hi : idxOf c l2 <;> simp [hi]
  | cons a t ih =>
      have hac : (a == c) = false := by
        simp only [List.mem_cons, not_or] at h
        simp [beq_eq_false_iff_ne]
        exact fun heq => h.1 heq.symm
      have ht := ih (fun hmem => h (List.mem_cons_of_mem a hmem))
      rw [List.cons_append]
      show (if a == c then some 0 else (idxOf c (t ++ l2)).map (fun i => i + 1)) =
        (idxOf c l2).map (fun i => i + (a :: t).length)
      rw [if_neg (by simp [hac]), ht]
      cases hi : idxOf c l2 with
      | none => simp
      | some i =>
          simp only [Option.map, List.length_cons, Option.some.injEq]
          omega

theorem idxOf_cons_self (c : Char) (t : List Char) :
    idxOf c (c :: t) = some 0 := by
  simp [idxOf]

theorem braces_first (x2 j y2 : List Char) (hj1 : j.head? = some '\x7b')
    (hx : '\x7b' ∉ x2) :
    idxOf '\x7b' (x2 ++ (j ++ y2)) = some x2.length := by
  rw [idxOf_append_not_mem x2 (j ++ y2) hx]
  cases j with
  | nil => cases hj1
  | cons a t =>
      have ha : a = '\x7b' := by simpa using hj1
      subst ha
      rw [List.cons_append, idxOf_cons_self]
      simp

theorem braces_last (x2 j y2 : List Char) (hj2 : j.getLast? = some '\x7d')
    (hy : '\x7d' ∉ y2) :
    lastIdxOf '\x7d' (x2 ++ (j ++ y2)) =
      some (x2.length + j.length - 1) := by
  unfold lastIdxOf
  have hrev : (x2 ++ (j ++ y2)).reverse =
      y2.reverse ++ (j.reverse ++ x2.reverse) := by
    simp [List.reverse_append, List.append_assoc]
  have hyrev : '\x7d' ∉ y2.reverse := by
    rw [List.mem_reverse]
    exact hy
  have hhead : j.reverse.head? = some '\x7d' := by
    rw [List.head?_reverse]
    exact hj2
  have hjne : j.reverse ≠ [] := by
    cases hr : j.reverse with
    | nil => rw [hr] at hhead; cases hhead
    | cons a t => simp
  rw [hrev, idxOf_append_not_mem y2.reverse _ hyrev]
  cases hr : j.reverse with
  | nil => exact absurd hr hjne
  | cons a t =>
      have ha : a = '\x7d' := by
        rw [hr] at hhead
        simpa using hhead
      subst ha
      have hlen : j.length = t.length + 1 := by
        have := congrArg List.length hr
        simpa using this
      rw [List.cons_append, idxOf_cons_self]
      simp only [Option.map, Option.some.injEq]
      simp only [List.length_append, List.length_reverse]
      omega

theorem braces_cut (x2 j y2 : List Char) (_hjne : j ≠ []) :
    jsSubstring (x2 ++ (j ++ y2)) x2.length (x2.length + j.length) = j := by
  unfold jsSubstring
  have hmin : min x2.length (x2.length + j.length) = x2.length := by omega
  have hmax : max x2.length (x2.length + j.length) = x2.length + j.length := by
    omega
  rw [hmin, hmax]
  have hassoc : x2 ++ (j ++ y2) = (x2 ++ j) ++ y2 := by
    rw [List.append_assoc]
  rw [hassoc]
  have htake : ((x2 ++ j) ++ y2).take (x2.length + j.length) = x2 ++ j :=
    List.take_left' (by simp)
  rw [htake]
  exact List.drop_left' (by simp)

theorem extract_of_shape (x j y : List Char)
    (hj1 : j.head? = some '\x7b') (hj2 : j.getLast? = some '\x7d')
    (hbt : '`' ∉ j) (hx : '\x7b' ∉ x) (hy : '\x7d' ∉ y) :
    extractJsonCandidate (x ++ (j ++ y)) = some j := by
  have hjne : j ≠ [] := by
    cases j with
    | nil => cases hj1
    | cons a t => simp
  have hlastj : ∃ c, j.getLast? = some c ∧ isJsWs c = false :=
    ⟨'\x7d', hj2, by decide⟩
  obtain ⟨x1, y1, hx1, hy1, htrim⟩ := jsTrim_decompose x j y hj1 hj2
  obtain ⟨x2, hx2, hs1⟩ := scrub_front matchLen1
    (fun _ _ h => matchLen1_chars h)
    (fun _ _ h => by have := matchLen1_pos h; omega) x1 j y1 hj1
  have hskip1 : scrub matchLen1 (j ++ y1) = j ++ scrub matchLen1 y1 :=
    scrub_skip matchLen1 matchLen1_no_match j y1 hjne hbt hlastj
  obtain ⟨x3, hx3, hs2⟩ := scrub_front matchLen2
    (fun _ _ h => matchLen2_chars h)
    (fun _ _ h => by have := matchLen2_pos h; omega) x2 j
    (scrub matchLen1 y1) hj1
  have hskip2 : scrub matchLen2 (j ++ scrub matchLen1 y1) =
      j ++ scrub matchLen2 (scrub matchLen1 y1) :=
    scrub_skip matchLen2 matchLen2_no_match j _ hjne hbt hlastj
  have hclean : scrub matchLen2 (scrub matchLen1 (jsTrim (x ++ (j ++ y)))) =
      x3 ++ (j ++ scrub matchLen2 (scrub matchLen1 y1)) := by
    rw [htrim, hs1, hskip1, hs2, hskip2]
  have hx3x : '\x7b' ∉ x3 := fun hmem => hx (hx1 _ (hx2 _ (hx3 _ hmem)))
  have hy3y : '\x7d' ∉ scrub matchLen2 (scrub matchLen1 y1) := by
    intro hmem
    have h1 : '\x7d' ∈ scrub matchLen1 y1 :=
      scrub_mem matchLen2
        (fun _ _ h => by have := matchLen2_pos h; omega) _ _ hmem
    have h2 : '\x7d' ∈ y1 :=
      scrub_mem matchLen1
        (fun _ _ h => by have := matchLen1_pos h; omega) _ _ h1
    exact hy (hy1 _ h2)
  have hfst := braces_first x3 j (scrub matchLen2 (scrub matchLen1 y1)) hj1 hx3x
  have hlst := braces_last x3 j (scrub matchLen2 (scrub matchLen1 y1)) hj2 hy3y
  have hjlen : 1 ≤ j.length := by
    cases j with
    | nil => exact absurd rfl hjne
    | cons a t => simp
  have he1 : x3.length + j.length - 1 + 1 = x3.length + j.length := by omega
  have hcut2 : jsSubstring (x3 ++ (j ++ scrub matchLen2 (scrub matchLen1 y1)))
      x3.length (x3.length + j.length - 1 + 1) = j := by
    rw [he1]
    exact braces_cut x3 j _ hjne
  unfold extractJsonCandidate
  rw [hclean, hfst, hlst]
  exact congrArg some hcut2

/-! ## Claims about the persistence layer -/

/-- C1 (code_bug evidence): the settings schema declares no uniqueness
constraint on `(user_id, setting_key)`, so the `INSERT OR REPLACE` of
`setSetting` never replaces: writing `dark` then `light` under the same
key leaves two rows for `(1, "theme")`, and the unordered
`SELECT ... LIMIT`-first read returns the first-written value `dark`,
not the last-written `light`. -/
theorem c1_settings_upsert_violated :
    ((setSetting (setSetting initDb "theme" "dark" 1) "theme" "light" 1).settings.filter
        (fun r => r.user_id == 1 && r.setting_key == "theme")).length = 2 ∧
    getSetting (setSetting (setSetting initDb "theme" "dark" 1) "theme" "light" 1)
        "theme" 1 = some "dark" := by
  decide

/-- C2 (counterexample): for weight 70, age 30, activity `moderate`,
goal `lose_steady` and no explicit goals, the calorie goal stored by
`updateUserProfile` is not 2141. -/
theorem c2_calorie_goal_counterexample :
    (getUser (updateUserProfile initDb
        { name := "User", weight := 70, age := 30,
          activity_level := "moderate", weight_goal := "lose_steady" } 1) 1).map
      UserRow.calorie_goal ≠ some 2141 := by
  have h : calculateCalorieGoal 70 30 "moderate" "lose_steady" = 2056 := by
    unfold calculateCalorieGoal
    norm_num [jsRound, ratFloor_eq_intFloor]
  simp [getUser, updateUserProfile, initDb, jsNumOptOr, h]

/-- C2 (amended): with that input the derived calorie goal computed and
stored by the profile-update operation equals 2056 — the code rounds
`(10·70 + 6.25·175 − 5·30 + 5) · 1.55 − 500 = 2055.5625` to 2056. -/
theorem c2_calorie_goal_amended :
    calculateCalorieGoal 70 30 "moderate" "lose_steady" = 2056 ∧
    (getUser (updateUserProfile initDb
        { name := "User", weight := 70, age := 30,
          activity_level := "moderate", weight_goal := "lose_steady" } 1) 1).map
      UserRow.calorie_goal = some 2056 := by
  have h : calculateCalorieGoal 70 30 "moderate" "lose_steady" = 2056 := by
    unfold calculateCalorieGoal
    norm_num [jsRound, ratFloor_eq_intFloor]
  refine ⟨h, ?_⟩
  simp [getUser, updateUserProfile, initDb, jsNumOptOr, h]

/-- C8: `updateFoodEntry` with an update object whose defined fields
(after excluding `id`, `created_at` and `undefined` values) form the
empty set returns without touching any table: the early `return` fires
before any SQL runs, so the whole database state is unchanged. -/
theorem c8_update_empty_noop (db : DbState) (id : ℤ) (u : FoodUpdate)
    (h : u.hasEffectiveField = false) :
    updateFoodEntry db id u = db := by
  simp [updateFoodEntry, h]

/-- C8 witness: a concrete update supplying only `id` and `created_at`
leaves the initial database untouched. -/
theorem c8_update_empty_noop_witness :
    FoodUpdate.hasEffectiveField
      { id := some 7, created_at := some "2024-01-01" } = false ∧
    updateFoodEntry initDb 7 { id := some 7, created_at := some "2024-01-01" } =
      initDb :=
  ⟨by decide,
   c8_update_empty_noop initDb 7
     { id := some 7, created_at := some "2024-01-01" } (by decide)⟩

/-- C9: `getWaterIntakeByDate` returns exactly the sum of the signed
deltas inserted for that `(user, date)` pair — in particular 600 after
inserting `[500, 300, -200]`, 0 on an empty table, and a negative total
when removals exceed additions (no floor at zero). -/
theorem c9_water_sum :
    (∀ (ins : List (ℤ × String × ℤ)) (date : String) (u : ℤ),
       getWaterIntakeByDate (applyWaterInserts initDb ins) date u =
         ((ins.filter (fun i => i.2.2 == u && i.2.1 == date)).map
            (fun i => i.1)).sum) ∧
    getWaterIntakeByDate
      (applyWaterInserts initDb
        [(500, "2024-01-01", 1), (300, "2024-01-01", 1), (-200, "2024-01-01", 1)])
      "2024-01-01" 1 = 600 ∧
    getWaterIntakeByDate initDb "2024-01-01" 1 = 0 ∧
    getWaterIntakeByDate
      (applyWaterInserts initDb [(100, "2024-01-01", 1), (-300, "2024-01-01", 1)])
      "2024-01-01" 1 = -200 := by
  refine ⟨?_, by decide, by decide, by decide⟩
  intro ins date u
  unfold getWaterIntakeByDate
  rw [applyWaterInserts_water, jsOrZero_eq]
  have hinit : initDb.water_intake = [] := rfl
  rw [hinit, List.nil_append, List.filter_map, List.map_map]
  rfl

/-- C10: `updateUserProfile` decides that a goal was omitted by
JavaScript falsiness, so an explicitly supplied `calorie_goal = 0` or
`water_goal = 0` is not stored — the derived BMR/weight-formula goal is
stored instead — while a nonzero supplied goal is stored verbatim. -/
theorem c10_zero_goal_falsy (db : DbState) (p : ProfileInput) (uid : ℤ)
    (u : UserRow) (h : getUser (updateUserProfile db p uid) uid = some u) :
    (p.calorie_goal = some 0 →
       u.calorie_goal =
         ((calculateCalorieGoal p.weight p.age p.activity_level p.weight_goal : ℤ) : ℚ)) ∧
    (∀ v : ℚ, v ≠ 0 → p.calorie_goal = some v → u.calorie_goal = v) ∧
    (p.water_goal = some 0 →
       u.water_goal = ((calculateWaterGoal p.weight p.age : ℤ) : ℚ)) ∧
    (∀ v : ℚ, v ≠ 0 → p.water_goal = some v → u.water_goal = v) := by
  unfold getUser at h
  obtain ⟨hmem, hid⟩ := head?_filter_cases _ _ _ h
  have hmem' : u ∈ (updateUserProfile db p uid).users := hmem
  unfold updateUserProfile at hmem'
  simp only [List.mem_map] at hmem'
  obtain ⟨w, hw, hwu⟩ := hmem'
  by_cases hcase : w.id = uid
  · rw [if_pos hcase] at hwu
    subst hwu
    refine ⟨?_, ?_, ?_, ?_⟩
    · intro h0; simp [jsNumOptOr, h0]
    · intro v hv h0; simp [jsNumOptOr, h0, hv]
    · intro h0; simp [jsNumOptOr, h0]
    · intro v hv h0; simp [jsNumOptOr, h0, hv]
  · rw [if_neg hcase] at hwu
    subst hwu
    exact absurd (by simpa using hid) hcase

/-- C10 witness: supplying both goals as 0 for the default user stores
the derived goals (2056 kcal and 2450 ml for weight 70, age 30,
moderate activity, steady loss). -/
theorem c10_zero_goal_falsy_witness :
    getUser (updateUserProfile initDb
        { name := "A", weight := 70, age := 30, activity_level := "moderate",
          weight_goal := "lose_steady", calorie_goal := some 0,
          water_goal := some 0 } 1) 1 =
      some { id := 1, name := "A", weight := some 70, age := some 30,
             activity_level := some "moderate",
             weight_goal := some "lose_steady", calorie_goal := 2056,
             water_goal := 2450, setup_completed := true } ∧
    (2056 : ℚ) =
      ((calculateCalorieGoal 70 30 "moderate" "lose_steady" : ℤ) : ℚ) ∧
    (2450 : ℚ) = ((calculateWaterGoal 70 30 : ℤ) : ℚ) := by
  have hc : calculateCalorieGoal 70 30 "moderate" "lose_steady" = 2056 := by
    unfold calculateCalorieGoal
    norm_num [jsRound, ratFloor_eq_intFloor]
  have hw : calculateWaterGoal 70 30 = 2450 := by
    unfold calculateWaterGoal
    norm_num [jsRound, ratFloor_eq_intFloor]
  have heq : getUser (updateUserProfile initDb
      { name := "A", weight := 70, age := 30, activity_level := "moderate",
        weight_goal := "lose_steady", calorie_goal := some 0,
        water_goal := some 0 } 1) 1 =
      some { id := 1, name := "A", weight := some 70, age := some 30,
             activity_level := some "moderate",
             weight_goal := some "lose_steady", calorie_goal := 2056,
             water_goal := 2450, setup_completed := true } := by
    simp [getUser, updateUserProfile, initDb, jsNumOptOr, hc, hw]
  refine ⟨heq, ?_, ?_⟩
  · have := (c10_zero_goal_falsy initDb
      { name := "A", weight := 70, age := 30, activity_level := "moderate",
        weight_goal := "lose_steady", calorie_goal := some 0,
        water_goal := some 0 } 1 _ heq).1 rfl
    simpa using this
  · have := (c10_zero_goal_falsy initDb
      { name := "A", weight := 70, age := 30, activity_level := "moderate",
        weight_goal := "lose_steady", calorie_goal := some 0,
        water_goal := some 0 } 1 _ heq).2.2.1 rfl
    simpa using this

/-! ## Claims about the analysis client -/

/-- C3 (counterexample): in the client state with no API key configured,
`generateNutritionTip` throws the missing-configuration error instead of
returning a string — the guard sits before the `try`/`catch`. -/
theorem c3_tip_counterexample :
    generateNutritionTip (mkService none) HttpOutcome.err =
      Except.error "OpenRouter API key not configured" := by
  rfl

/-- C3 (amended): whenever an API key is configured,
`generateNutritionTip` returns a string for every outcome of the
underlying request — the reply (or first canned sentence when the reply
is falsy) on success, the second canned sentence on any thrown failure;
only the missing-key state throws. -/
theorem c3_tip_amended (cfg : ClientConfig) (outcome : HttpOutcome)
    (h : cfg.apiKey ≠ "") :
    ∃ s : String, generateNutritionTip cfg outcome = Except.ok s := by
  unfold generateNutritionTip
  rw [if_neg h]
  cases outcome with
  | ok content => exact ⟨_, rfl⟩
  | err => exact ⟨_, rfl⟩

/-- C3 witness: a client constructed with key `"k"` returns a string even
when the request throws. -/
theorem c3_tip_amended_witness :
    (mkService (some "k")).apiKey ≠ "" ∧
    ∃ s : String, generateNutritionTip (mkService (some "k")) HttpOutcome.err =
      Except.ok s :=
  ⟨by decide, c3_tip_amended (mkService (some "k")) HttpOutcome.err (by decide)⟩

/-- C4 (counterexample): HTTP 502 is not mapped to the
upstream-service-error message — the `switch` only matches the literal
status 500, and every other 5xx status falls through to the generic
default. -/
theorem c4_http5xx_counterexample :
    analyzeFoodHttpErrorMessage (some 502) "Bad Gateway" ≠
      "OpenRouter service error. Please try again later." := by
  decide

/-- C4 (amended): exactly status 500 yields the upstream-service-error
message; any other status besides 401 and 429 — including 502 and 503 —
yields the generic `API Error: <message>` default. -/
theorem c4_http5xx_amended (s : ℤ) (msg : String) (h401 : s ≠ 401)
    (h429 : s ≠ 429) (h500 : s ≠ 500) :
    analyzeFoodHttpErrorMessage (some 500) msg =
      "OpenRouter service error. Please try again later." ∧
    analyzeFoodHttpErrorMessage (some s) msg = "API Error: " ++ msg := by
  constructor
  · rfl
  · unfold analyzeFoodHttpErrorMessage
    rw [if_neg (by simp [h401]), if_neg (by simp [h429]),
        if_neg (by simp [h500])]

/-- C4 witness: status 502 with upstream message `Bad Gateway` maps to
the generic default, and 500 to the upstream-service message. -/
theorem c4_http5xx_amended_witness :
    (502 : ℤ) ≠ 401 ∧ (502 : ℤ) ≠ 429 ∧ (502 : ℤ) ≠ 500 ∧
    (analyzeFoodHttpErrorMessage (some 500) "Bad Gateway" =
      "OpenRouter service error. Please try again later." ∧
     analyzeFoodHttpErrorMessage (some 502) "Bad Gateway" =
      "API Error: " ++ "Bad Gateway") :=
  ⟨by decide, by decide, by decide,
   c4_http5xx_amended 502 "Bad Gateway" (by decide) (by decide) (by decide)⟩

/-- C5 (counterexample): a record whose `food_description` and
`estimated_serving` are both the empty string, all other fields
well-formed, passes `isValidNutritionResponse`, and `analyzeFood`
returns it instead of failing. -/
theorem c5_empty_string_counterexample :
    isValidNutritionResponse
      (mkNutritionObj "" "" "fruits" 95 0.5 25 0.3 "high") = true ∧
    analyzeFoodProcessContent
      (fun _ => JsonParseOutcome.ok
        (mkNutritionObj "" "" "fruits" 95 0.5 25 0.3 "high"))
      ("\x7b\x7d").data =
      Except.ok (mkNutritionObj "" "" "fruits" 95 0.5 25 0.3 "high") :=
  ⟨rfl, rfl⟩

/-- C5 (amended): the validator checks only `typeof === 'string'` on the
two text fields, so any strings — the empty string included — pass as
long as the category and confidence enums and the numeric fields are
well-formed. -/
theorem c5_empty_string_amended (d e cat conf : String)
    (cal pro carb fat : ℚ)
    (hcat : cat ∈ ["vegetables", "fruits", "grains", "protein", "dairy"])
    (hconf : conf ∈ ["high", "medium", "low"]) :
    isValidNutritionResponse (mkNutritionObj d e cat cal pro carb fat conf) =
      true := by
  unfold isValidNutritionResponse mkNutritionObj JVal.getField
  simp [List.lookup, jsTypeof, includesStr, hcat, hconf]

/-- C5 witness: empty description and serving with valid enums pass the
validator. -/
theorem c5_empty_string_amended_witness :
    ("fruits" ∈ ["vegetables", "fruits", "grains", "protein", "dairy"]) ∧
    ("high" ∈ ["high", "medium", "low"]) ∧
    isValidNutritionResponse
      (mkNutritionObj "" "" "fruits" 95 0.5 25 0.3 "high") = true :=
  ⟨by decide, by decide,
   c5_empty_string_amended "" "" "fruits" "high" 95 0.5 25 0.3
     (by decide) (by decide)⟩

/-- C6 (counterexample): for a record with `confidence = "certain"`, the
pipeline fails, but the surfaced error is the parse-failure message, not
the invalid-format message: the internal
`Error('Invalid nutrition analysis response format')` is caught by the
parse `catch` (it is not a `SyntaxError`) and replaced. -/
theorem c6_invalid_format_counterexample :
    analyzeFoodProcessContent
      (fun _ => JsonParseOutcome.ok
        (mkNutritionObj "Apple" "1x serving" "fruits" 95 0.5 25 0.3 "certain"))
      ("\x7b\x7d").data =
      Except.error "Failed to parse AI response. Please try again." ∧
    analyzeFoodProcessContent
      (fun _ => JsonParseOutcome.ok
        (mkNutritionObj "Apple" "1x serving" "fruits" 95 0.5 25 0.3 "certain"))
      ("\x7b\x7d").data ≠
      Except.error "Invalid nutrition analysis response format" := by
  have h1 : analyzeFoodProcessContent
      (fun _ => JsonParseOutcome.ok
        (mkNutritionObj "Apple" "1x serving" "fruits" 95 0.5 25 0.3 "certain"))
      ("\x7b\x7d").data =
      Except.error "Failed to parse AI response. Please try again." := rfl
  refine ⟨h1, ?_⟩
  rw [h1]
  intro h
  have hmsg : "Failed to parse AI response. Please try again." =
      "Invalid nutrition analysis response format" := by
    injection h
  exact absurd hmsg (by decide)

/-- C6 (amended): a parsed record missing `food_category`, or with a
`confidence` outside the enum (such as `"certain"`), fails validation and
`analyzeFood` fails — it never returns a record that fails validation —
but the error it surfaces for such records is the parse-failure message
`'Failed to parse AI response. Please try again.'` rather than the
invalid-format message, which is swallowed by the parse `catch`. -/
theorem c6_invalid_record_rejected :
    (∀ v : JVal, v.getField "food_category" = JVal.jundefined →
       isValidNutritionResponse v = false) ∧
    (∀ v : JVal,
       includesStr ["high", "medium", "low"] (v.getField "confidence") = false →
       isValidNutritionResponse v = false) ∧
    (∀ (parse : List Char → JsonParseOutcome) (content : List Char) (w : JVal),
       analyzeFoodProcessContent parse content = Except.ok w →
       isValidNutritionResponse w = true) ∧
    (∀ (v : JVal) (content : List Char), isValidNutritionResponse v = false →
       content ≠ [] →
       analyzeFoodProcessContent (fun _ => JsonParseOutcome.ok v) content =
         Except.error "Failed to parse AI response. Please try again.") := by
  refine ⟨?_, ?_, ?_, ?_⟩
  · intro v h
    unfold isValidNutritionResponse
    rw [h]
    simp [jsTypeof]
  · intro v h
    unfold isValidNutritionResponse
    rw [h]
    simp
  · intro parse content w h
    unfold analyzeFoodProcessContent at h
    split at h
    · cases h
    · split at h
      · cases h
      · split at h
        · cases h
        · next v heq =>
            split at h
            · next hval =>
                have hw : v = w := by
                  injection h
                rw [← hw]
                exact hval
            · cases h
  · intro v content hval hne
    unfold analyzeFoodProcessContent
    rw [if_neg hne]
    cases hextract : extractJsonCandidate content with
    | none => rfl
    | some s =>
        simp only []
        rw [if_neg (by simp [hval])]

/-- C6 witness: a record missing `food_category` and one with
`confidence = "certain"` both fail validation, and the pipeline surfaces
the parse-failure message for the latter. -/
theorem c6_invalid_record_rejected_witness :
    isValidNutritionResponse
      (JVal.jobj [("food_description", JVal.jstr "Apple")]) = false ∧
    isValidNutritionResponse
      (mkNutritionObj "Apple" "1x serving" "fruits" 95 0.5 25 0.3 "certain") =
      false ∧
    analyzeFoodProcessContent
      (fun _ => JsonParseOutcome.ok
        (mkNutritionObj "Apple" "1x serving" "fruits" 95 0.5 25 0.3 "certain"))
      ("\x7b\x7d").data =
      Except.error "Failed to parse AI response. Please try again." := by
  refine ⟨c6_invalid_record_rejected.1 _ rfl, ?_, ?_⟩
  · exact c6_invalid_record_rejected.2.1 _ rfl
  · exact c6_invalid_record_rejected.2.2.2 _ _
      (c6_invalid_record_rejected.2.1 _ rfl) (by decide)

/-- C7: for a reply built from a JSON object text `j` (brace-delimited,
containing no backtick) preceded by any prefix without `\x7b` — prose
plus a ` ```json ` fence — and followed by any suffix without `\x7d` — a
closing fence plus prose — the extraction step recovers exactly `j`, the
same string the bare reply `j` yields, so the subsequent parse and
validation, and hence `analyzeFood`, behave identically on the fenced
and bare replies. -/
theorem c7_fenced_json_extraction (x j y : List Char)
    (hj1 : j.head? = some '\x7b') (hj2 : j.getLast? = some '\x7d')
    (hbt : '`' ∉ j) (hx : '\x7b' ∉ x) (hy : '\x7d' ∉ y) :
    extractJsonCandidate (x ++ (j ++ y)) = some j ∧
    extractJsonCandidate j = some j ∧
    ∀ parse : List Char → JsonParseOutcome,
      analyzeFoodProcessContent parse (x ++ (j ++ y)) =
        analyzeFoodProcessContent parse j := by
  have hjne : j ≠ [] := by
    cases j with
    | nil => cases hj1
    | cons a t => simp
  have h1 : extractJsonCandidate (x ++ (j ++ y)) = some j :=
    extract_of_shape x j y hj1 hj2 hbt hx hy
  have h2 : extractJsonCandidate j = some j := by
    have := extract_of_shape [] j [] hj1 hj2 hbt (by simp) (by simp)
    simpa using this
  refine ⟨h1, h2, ?_⟩
  intro parse
  have hne1 : ¬(x ++ (j ++ y) = []) := by simp [hjne]
  unfold analyzeFoodProcessContent
  rw [if_neg hne1, if_neg hjne, h1, h2]

/-- C7 witness: a concrete fenced reply with prose on both sides
extracts to the same JSON text as the bare reply. -/
theorem c7_fenced_json_extraction_witness :
    extractJsonCandidate (("Sure! ```json\n").data ++
      (("\x7b \"calories\": 95 \x7d").data ++ ("\n``` enjoy.").data)) =
      some (("\x7b \"calories\": 95 \x7d").data) ∧
    extractJsonCandidate (("\x7b \"calories\": 95 \x7d").data) =
      some (("\x7b \"calories\": 95 \x7d").data) := by
  have h := c7_fenced_json_extraction ("Sure! ```json\n").data
    ("\x7b \"calories\": 95 \x7d").data ("\n``` enjoy.").data
    (by decide) (by decide) (by decide) (by decide) (by decide)
  exact ⟨h.1, h.2.1⟩

end NutritionAI
